import Mathlib

set_option maxHeartbeats 1000000

/-! Verification development for `update.py`: a CI orchestration step that
runs a directory of update scripts, detects which JSON files under the
`releases/` output directory changed, snapshots old/new content around a
git stash/pop pair, and renders order-insensitive structural diffs into a
step summary and a commit message. -/

/-! ## Path model (`pathlib.Path`) -/

/-- A filesystem path, as its normalized component list (mirroring
`pathlib.PurePosixPath`: spurious slashes and single-dot components are
collapsed; an absolute path keeps the root component `"/"`). -/
abbrev PathT := List String

/-- Python's `str.split` with a one-character separator, over the character
list: splitting always yields one more piece than there are separators, so
splitting the empty string yields `[[]]`. -/
def splitChar (sep : Char) : List Char → List (List Char)
  | [] => [[]]
  | c :: cs =>
    match splitChar sep cs with
    | [] => []
    | h :: t => if c = sep then [] :: h :: t else (c :: h) :: t

/-- `s.split('\n')` as the Python `str.split` with separator `'\n'`. -/
def pySplitNl (s : String) : List String :=
  (splitChar '\n' s.toList).map (fun cs => String.mk cs)

/-- Python's `str.endswith`. -/
def strEndsWith (s suffixStr : String) : Bool :=
  let l := s.toList
  let suf := suffixStr.toList
  l.drop (l.length - suf.length) == suf

/-- `pathlib.Path(s)`: split on `/`, drop empty and `.` components, keep a
root marker for absolute paths. -/
def parsePath (s : String) : PathT :=
  let cs := s.toList
  let comps := ((splitChar '/' cs).filter (fun l => l != [] && l != ['.'])).map
    (fun l => String.mk l)
  match cs with
  | '/' :: _ => "/" :: comps
  | _ => comps

/-- `Path.parent`: drop the last component; the parent of `.` is `.` and the
parent of `/` is `/`. -/
def pathParent (p : PathT) : PathT :=
  if p = ["/"] then ["/"] else p.dropLast

/-- `str(Path)`: the components joined with `/`, or `.` for the empty path.
`Path.__lt__` compares these strings, which is what `sorted` uses. -/
def pathStr (p : PathT) : String :=
  match p with
  | [] => "."
  | "/" :: rest => "/" ++ String.intercalate "/" rest
  | comps => String.intercalate "/" comps

/-- Index of the last `.` in a character list (`str.rfind('.')`). -/
def lastDot : List Char → Option Nat
  | [] => none
  | c :: cs =>
    match lastDot cs with
    | some i => some (i + 1)
    | none => if c = '.' then some 0 else none

/-- `PurePath` suffix splitting for one name: the stem is `name[:i]` when
`i = name.rfind('.')` satisfies `0 < i < len(name) - 1`, else the whole
name. -/
def stemOf (name : String) : String :=
  let cs := name.toList
  match lastDot cs with
  | some i => if 0 < i ∧ i < cs.length - 1 then String.mk (cs.take i) else name
  | none => name

/-- `Path.stem`: the stem of the final component. -/
def pathStem (p : PathT) : String :=
  stemOf ((p.getLast?).getD "")

/-- `SRC_DIR = Path('src')`. -/
def SRC_DIR : PathT := ["src"]

/-- `DATA_DIR = Path('releases')`. -/
def DATA_DIR : PathT := ["releases"]

/-! ## JSON values and the order-insensitive equality of the diff engine -/

/-- A parsed JSON tree (`json.load` result). -/
inductive Json where
  | null
  | bool (b : Bool)
  | num (n : Int)
  | str (s : String)
  | arr (elems : List Json)
  | obj (kvs : List (String × Json))

/-- Remove the first binding with key `k` from an object, returning its value
and the remaining bindings. -/
def lookupRemove (k : String) : List (String × Json) → Option (Json × List (String × Json))
  | [] => none
  | (k', v) :: rest =>
    if k' = k then some (v, rest)
    else (lookupRemove k rest).map (fun r => (r.1, (k', v) :: r.2))

mutual
/-- Modelled from the spec: the order-insensitive structural equality under
which the black-box diff capability (the external `DeepDiff` library with
`ignore_order=True`, not part of this repository's sources) reports an empty
diff — "treating the two JSON trees as semantically equal under reordering of
unordered collections": arrays are compared as multisets, objects key-wise. -/
def jsonEq : Json → Json → Bool
  | .null, .null => true
  | .bool a, .bool b => a == b
  | .num a, .num b => a == b
  | .str a, .str b => a == b
  | .arr xs, .arr ys => jsonMsetMatch xs ys
  | .obj kvs, .obj kvs' => jsonObjMatch kvs kvs'
  | _, _ => false
termination_by a b => (sizeOf a, sizeOf b)

/-- Multiset matching of two arrays: each element of the first list is paired
with an order-insensitively equal element of the second (with backtracking). -/
def jsonMsetMatch : List Json → List Json → Bool
  | [], ys => ys.isEmpty
  | x :: xs, ys => jsonAnyMatch xs (jsonPicks x ys)
termination_by xs ys => (sizeOf xs, sizeOf ys)

/-- Try to finish the matching with each candidate remainder in turn. -/
def jsonAnyMatch (xs : List Json) : List (List Json) → Bool
  | [] => false
  | c :: cs => jsonMsetMatch xs c || jsonAnyMatch xs cs
termination_by cs => (sizeOf xs, sizeOf cs)

/-- All ways to remove from `ys` one element that matches `x`. -/
def jsonPicks (x : Json) : List Json → List (List Json)
  | [] => []
  | y :: ys =>
    (if jsonEq x y then [ys] else []) ++ (jsonPicks x ys).map (fun c => y :: c)
termination_by ys => (sizeOf x, sizeOf ys)

/-- Key-wise matching of two objects: same key multiset, order-insensitively
equal values. -/
def jsonObjMatch : List (String × Json) → List (String × Json) → Bool
  | [], kvs' => kvs'.isEmpty
  | (k, v) :: kvs, kvs' =>
    match lookupRemove k kvs' with
    | some (v', rest) => jsonEq v v' && jsonObjMatch kvs rest
    | none => false
termination_by kvs kvs' => (sizeOf kvs, sizeOf kvs')
end

/-! ## Structured diff entries and their rendering (`DeepDiff(...).pretty()`) -/

/-- A single structural change record, per the spec's
`Added | Removed | Changed` taxonomy. -/
inductive DiffEntry where
  | added (path : String) (v : Json)
  | removed (path : String) (v : Json)
  | changed (path : String) (oldVal newVal : Json)

mutual
/-- Python-style rendering of a JSON value inside a diff line. -/
def jsonToString : Json → String
  | .null => "None"
  | .bool b => if b then "True" else "False"
  | .num n => toString n
  | .str s => "\"" ++ s ++ "\""
  | .arr xs => "[" ++ jsonElemsToString xs ++ "]"
  | .obj kvs => "\x7b" ++ jsonKvsToString kvs ++ "\x7d"
termination_by j => sizeOf j

def jsonElemsToString : List Json → String
  | [] => ""
  | [x] => jsonToString x
  | x :: xs => jsonToString x ++ ", " ++ jsonElemsToString xs
termination_by xs => sizeOf xs

def jsonKvsToString : List (String × Json) → String
  | [] => ""
  | [(k, v)] => "\"" ++ k ++ "\": " ++ jsonToString v
  | (k, v) :: kvs => "\"" ++ k ++ "\": " ++ jsonToString v ++ ", " ++ jsonKvsToString kvs
termination_by kvs => sizeOf kvs
end

/-- One pretty line per change record, annotated with the structural path
and, for changes, the old and new values. -/
def renderEntry : DiffEntry → String
  | .added p v => "Item " ++ p ++ " (" ++ jsonToString v ++ ") added."
  | .removed p v => "Item " ++ p ++ " (" ++ jsonToString v ++ ") removed."
  | .changed p o n =>
      "Value of " ++ p ++ " changed from " ++ jsonToString o ++ " to " ++ jsonToString n ++ "."

/-- Plain key lookup in an object. -/
def lookupJ (k : String) : List (String × Json) → Option Json
  | [] => none
  | (k', v) :: rest => if k' = k then some v else lookupJ k rest

/-- Remove from `ys` the first element order-insensitively equal to `x`. -/
def matchOut (x : Json) : List Json → Option (List Json)
  | [] => none
  | y :: ys => if jsonEq x y then some ys else (matchOut x ys).map (fun c => y :: c)

/-- Greedy multiset difference of two arrays: the elements of `xs` with no
match in `ys`, and the elements of `ys` left unmatched. -/
def arrUnmatched : List Json → List Json → List Json × List Json
  | [], ys => ([], ys)
  | x :: xs, ys =>
    match matchOut x ys with
    | some ys' => arrUnmatched xs ys'
    | none =>
      let r := arrUnmatched xs ys
      (x :: r.1, r.2)

mutual
/-- Modelled from the spec: the change records computed by the black-box
diff capability (the external `DeepDiff` library, not part of this
repository's sources) — an order-insensitive list of additions, removals
and value changes with structural paths; it is empty exactly on
order-insensitively equal trees. -/
def jsonDiffEntries (path : String) (a b : Json) : List DiffEntry :=
  if jsonEq a b then []
  else
    match a, b with
    | .obj kvs, .obj kvs' =>
        objRemovedChanged path kvs kvs' ++
        (kvs'.filter (fun kv => (lookupJ kv.1 kvs).isNone)).map
          (fun kv => .added (path ++ "[" ++ kv.1 ++ "]") kv.2)
    | .arr xs, .arr ys =>
        ((arrUnmatched xs ys).1).map (fun v => .removed path v) ++
        ((arrUnmatched xs ys).2).map (fun v => .added path v)
    | a, b => [.changed path a b]
termination_by sizeOf a

/-- Per-key removed/changed records for the keys of the old object. -/
def objRemovedChanged (path : String) : List (String × Json) → List (String × Json) → List DiffEntry
  | [], _ => []
  | (k, v) :: kvs, kvs' =>
    (match lookupJ k kvs' with
     | some v' => jsonDiffEntries (path ++ "[" ++ k ++ "]") v v'
     | none => [.removed (path ++ "[" ++ k ++ "]") v]) ++
    objRemovedChanged path kvs kvs'
termination_by kvs _ => sizeOf kvs
end

/-- `DeepDiff(old, new, ignore_order=True, verbose_level=2).pretty()`: the
rendered diff lines joined with newlines; the empty string for an empty
diff. -/
def deepDiffPretty (oldVal newVal : Json) : String :=
  String.intercalate "\n" ((jsonDiffEntries "root" oldVal newVal).map renderEntry)

/-- `diff.pretty().split('\n')`: the line list the reporting loop iterates
over. Splitting the empty string yields the single-element list `[""]`. -/
def diffLines (oldVal newVal : Json) : List String :=
  pySplitNl (deepDiffPretty oldVal newVal)

/-- The bullet lines the reporting loop writes for one entity, in both the
step summary and the commit message: `"- {line}"` for each pretty line. -/
def renderedDiff (oldVal newVal : Json) : List String :=
  (diffLines oldVal newVal).map (fun l => "- " ++ l)

/-! ## "Differing only in array element order" -/

mutual
/-- Two JSON trees differing only in the order of array elements. -/
inductive JsonPerm : Json → Json → Prop where
  | null : JsonPerm .null .null
  | bool (b : Bool) : JsonPerm (.bool b) (.bool b)
  | num (n : Int) : JsonPerm (.num n) (.num n)
  | str (s : String) : JsonPerm (.str s) (.str s)
  | arr {xs ys zs : List Json} :
      JsonPtwise xs zs → zs.Perm ys → JsonPerm (.arr xs) (.arr ys)
  | obj {kvs kvs' : List (String × Json)} :
      JsonObjPtwise kvs kvs' → JsonPerm (.obj kvs) (.obj kvs')

/-- Pointwise `JsonPerm` on element lists. -/
inductive JsonPtwise : List Json → List Json → Prop where
  | nil : JsonPtwise [] []
  | cons {x y : Json} {xs ys : List Json} :
      JsonPerm x y → JsonPtwise xs ys → JsonPtwise (x :: xs) (y :: ys)

/-- Pointwise `JsonPerm` on object bindings (keys unchanged). -/
inductive JsonObjPtwise : List (String × Json) → List (String × Json) → Prop where
  | nil : JsonObjPtwise [] []
  | cons {k : String} {v v' : Json} {kvs kvs' : List (String × Json)} :
      JsonPerm v v' → JsonObjPtwise kvs kvs' → JsonObjPtwise ((k, v) :: kvs) ((k, v') :: kvs')
end

/-! ## Filesystem snapshots and `load_products_json` -/

/-- The state of one path on disk at a snapshot point. -/
inductive FileState where
  | missing
  | unparsable
  | parsed (j : Json)

/-- Python-dict assignment `d[k] = v`: replace in place if the key exists,
else append. -/
def upsert (m : List (PathT × Json)) (k : PathT) (v : Json) : List (PathT × Json) :=
  match m with
  | [] => [(k, v)]
  | (k', v') :: rest => if k' = k then (k, v) :: rest else (k', v') :: upsert rest k v

/-- Python-dict lookup `d[k]`. -/
def lookupP (k : PathT) : List (PathT × Json) → Option Json
  | [] => none
  | (k', v) :: rest => if k' = k then some v else lookupP k rest

/-- The loop body of `load_products_json` over the path list, with the dict
accumulated so far; `.error` models a raised `json.load` exception. -/
def loadGo (fs : PathT → FileState) : List PathT → List (PathT × Json) → Except Unit (List (PathT × Json))
  | [], acc => .ok acc
  | p :: ps, acc =>
    match fs p with
    | .unparsable => .error ()
    | .missing => loadGo fs ps (upsert acc p (.obj []))
    | .parsed j => loadGo fs ps (upsert acc p j)

/-- `load_products_json`: a dict from each path to its parsed JSON content,
with `{}` for a path that does not exist on disk (new or deleted file). -/
def load_products_json (ps : List PathT) (fs : PathT → FileState) :
    Except Unit (List (PathT × Json)) :=
  loadGo fs ps []

/-! ## Script running and change detection -/

/-- One executed script's outcome (`ScriptResult`; `__lt__` compares
durations only). -/
structure ScriptResult where
  name : String
  duration : ℚ
  success : Bool

/-- The environment one run observes: the `src/` directory listing, each
script's exit code and measured duration, the staged-diff output, and the
working-tree content at the two snapshot points. -/
structure Env where
  srcListing : List String
  returncode : String → Int
  durationOf : String → ℚ
  gitDiff : String
  fsNew : PathT → FileState
  fsOld : PathT → FileState

/-- Python string comparison: code-point lexicographic `≤` on the character
lists. -/
def charListLe : List Char → List Char → Bool
  | [], _ => true
  | _ :: _, [] => false
  | a :: as, b :: bs =>
    if a.toNat = b.toNat then charListLe as bs else decide (a.toNat < b.toNat)

/-- `sorted` comparison on paths (`Path.__lt__` compares the path strings). -/
def pathLe (p q : PathT) : Prop :=
  charListLe (pathStr p).toList (pathStr q).toList = true

instance : DecidableRel pathLe :=
  fun p q =>
    inferInstanceAs (Decidable (charListLe (pathStr p).toList (pathStr q).toList = true))

/-- `sorted([SRC_DIR / file for file in os.listdir(SRC_DIR) if
file.endswith('.py')])`. -/
def discoveredScripts (listing : List String) : List PathT :=
  ((listing.filter (fun f => strEndsWith f ".py")).map (fun f => SRC_DIR ++ [f])).insertionSort pathLe

/-- The `results` list of `run_scripts`, in script execution order. -/
def scriptResults (env : Env) : List ScriptResult :=
  (discoveredScripts env.srcListing).map
    (fun p =>
      { name := pathStem p
        duration := env.durationOf (pathStr p)
        success := env.returncode (pathStr p) == 0 })

/-- `sorted(results, reverse=True)` under `ScriptResult.__lt__`: stable,
descending by duration. -/
def byDurationDesc (a b : ScriptResult) : Prop := b.duration ≤ a.duration

instance : DecidableRel byDurationDesc :=
  fun a b => inferInstanceAs (Decidable (b.duration ≤ a.duration))

/-- The rendered table rows of the script execution summary, slowest first. -/
def tableRows (env : Env) : List ScriptResult :=
  (scriptResults env).insertionSort byDurationDesc

/-- Zero-pad a two-digit fractional part. -/
def pad2 (n : Nat) : String := if n < 10 then "0" ++ toString n else toString n

/-- `f"{duration:.2f}"`: two-decimal formatting. -/
def fmt2 (q : ℚ) : String :=
  let c : ℤ := round (q * 100)
  toString (c / 100) ++ "." ++ pad2 ((c % 100).toNat)

/-- One markdown table row of the script execution summary. -/
def renderRow (r : ScriptResult) : String :=
  "| " ++ r.name ++ " | " ++ fmt2 r.duration ++ "s | " ++
    (if r.success then "✅" else "❌") ++ " |"

/-- The lines `run_scripts` writes to the step summary. -/
def run_scripts_summary (env : Env) : List String :=
  ["## Script execution summary\n",
   "| Name | Duration | Succeeded |",
   "|------|----------|-----------|"] ++
  (tableRows env).map renderRow ++ [""]

/-- `run_scripts`'s return value:
`not all(result.success for result in results)`. -/
def run_scripts_flag (results : List ScriptResult) : Bool :=
  !(results.all (fun r => r.success))

/-- `get_updated_products`: parse the staged-diff output into paths, keep
those whose parent directory is `DATA_DIR`, and sort. -/
def get_updated_products (gitDiffStdout : String) : List PathT :=
  (((pySplitNl gitDiffStdout).map parsePath).filter
    (fun p => pathParent p == DATA_DIR)).insertionSort pathLe

/-! ## `generate_commit_message` and the module-level run -/

/-- The lines one changed entity contributes to the step summary and to the
commit message: a header, one bullet per pretty line, a blank line. -/
def entrySection (p : PathT) (ov nv : Json) : List String × List String :=
  let bullets := renderedDiff ov nv
  (["### " ++ pathStem p ++ "\n"] ++ bullets ++ [""],
   [pathStem p ++ ":"] ++ bullets ++ [""])

/-- The per-product loop of `generate_commit_message`; `none` models the
`KeyError` raised by `new_content[path]` when the key is absent. -/
def sectionsGo (newContent : List (PathT × Json)) :
    List (PathT × Json) → Option (List String × List String)
  | [] => some ([], [])
  | (p, ov) :: rest =>
    match lookupP p newContent with
    | none => none
    | some nv =>
      match sectionsGo newContent rest with
      | none => none
      | some (s, c) =>
        some ((entrySection p ov nv).1 ++ s, (entrySection p ov nv).2 ++ c)

/-- `', '.join([path.stem for path in old_content])`. -/
def productNames (oldContent : List (PathT × Json)) : String :=
  String.intercalate ", " (oldContent.map (fun kv => pathStem kv.1))

/-- `generate_commit_message`: the step-summary lines and commit-message
lines produced for the changed products. -/
def generate_commit_message (oldContent newContent : List (PathT × Json)) :
    Option (List String × List String) :=
  match sectionsGo newContent oldContent with
  | none => none
  | some sc =>
    some (["Updated " ++ toString oldContent.length ++ " products: " ++
             productNames oldContent ++ ".\n"] ++ sc.1,
          ["🤖: " ++ productNames oldContent ++ "\n"] ++ sc.2)

/-- The git subprocess calls the run issues, in order. -/
inductive GitOp where
  | addAll
  | diffStaged
  | stash
  | pop
deriving DecidableEq

/-- What one run of the module leaves behind: the step-summary lines, the
`commit_message` output (if written), the `sys.exit` code (`none` models an
uncaught exception), whether the working tree is still stashed when the
process exits, and the git calls issued. The two text sinks model, per the
spec, the `GitHubStepSummary` and `GitHubOutput` append-only line streams of
`src.common.gha` (a module of this repository outside `src/update.py`):
each `println(x)` appends `x` as one element. -/
structure Outcome where
  summary : List String
  commitMessage : Option (List String)
  exitCode : Option Nat
  stashedAtExit : Bool
  gitTrace : List GitOp

/-- `some_script_failed`, the flag driving `sys.exit`. -/
def mainFlag (env : Env) : Bool := run_scripts_flag (scriptResults env)

/-- `updated_products`, the change set of the run. -/
def updatedProducts (env : Env) : List PathT := get_updated_products env.gitDiff

/-- The step-summary lines written before the update branch. -/
def baseSummary (env : Env) : List String :=
  run_scripts_summary env ++ ["## Update summary\n"]

/-- The git calls issued before the update branch (`git add --all`,
`git diff --name-only --staged`). -/
def baseTrace : List GitOp := [GitOp.addAll, GitOp.diffStaged]

/-- The module-level run of `update.py`: run the scripts, stage and detect
changes, branch on the change set, snapshot new content, stash, snapshot old
content, pop, report, and exit `1` iff some script failed. -/
def mainRun (env : Env) : Outcome :=
  if (updatedProducts env).isEmpty then
    { summary := baseSummary env ++ ["No update"]
      commitMessage := none
      exitCode := some (if mainFlag env then 1 else 0)
      stashedAtExit := false
      gitTrace := baseTrace }
  else
    match load_products_json (updatedProducts env) env.fsNew with
    | .error _ =>
      { summary := baseSummary env, commitMessage := none, exitCode := none
        stashedAtExit := false, gitTrace := baseTrace }
    | .ok newContent =>
      match load_products_json (updatedProducts env) env.fsOld with
      | .error _ =>
        { summary := baseSummary env, commitMessage := none, exitCode := none
          stashedAtExit := true, gitTrace := baseTrace ++ [GitOp.stash] }
      | .ok oldContent =>
        match generate_commit_message oldContent newContent with
        | none =>
          { summary := baseSummary env, commitMessage := none, exitCode := none
            stashedAtExit := false, gitTrace := baseTrace ++ [GitOp.stash, GitOp.pop] }
        | some sc =>
          { summary := baseSummary env ++ sc.1
            commitMessage := some sc.2
            exitCode := some (if mainFlag env then 1 else 0)
            stashedAtExit := false
            gitTrace := baseTrace ++ [GitOp.stash, GitOp.pop] }

/-! ## Concrete runs used to instantiate the theorems -/

/-- A run with one discovered script that succeeds and no staged changes. -/
def envQuiet : Env :=
  { srcListing := ["leap.py", "README.md"]
    returncode := fun _ => 0
    durationOf := fun _ => 1
    gitDiff := ""
    fsNew := fun _ => .missing
    fsOld := fun _ => .missing }

/-- A run in which one file under `releases/` changed, the new snapshot
loads, but the old snapshot hits a `json.load` failure after the stash. -/
def envStashFail : Env :=
  { srcListing := ["leap.py"]
    returncode := fun _ => 0
    durationOf := fun _ => 1
    gitDiff := "releases/alpha.json\n"
    fsNew := fun _ => .parsed (.num 2)
    fsOld := fun _ => .unparsable }

/-- Snapshot paths used by the load witnesses. -/
def psPair : List PathT := [["releases", "alpha.json"], ["releases", "beta.json"]]

/-- A working tree holding one parseable file, everything else absent. -/
def fsOne : PathT → FileState :=
  fun p => if p = ["releases", "alpha.json"] then .parsed (.num 1) else .missing

/-! ## Lemmas about the order-insensitive equality -/

theorem json_size_induction (P : Json → Prop)
    (h : ∀ a, (∀ b, sizeOf b < sizeOf a → P b) → P a) : ∀ a, P a := by
  have key : ∀ n a, sizeOf a < n → P a := by
    intro n
    induction n with
    | zero => intro a ha; omega
    | succ n ih => intro a _; exact h a (fun b hb => ih b (by omega))
  exact fun a => key (sizeOf a + 1) a (by omega)

theorem jsonAnyMatch_of_mem {xs : List Json} {c : List Json} {cands : List (List Json)}
    (hm : c ∈ cands) (hc : jsonMsetMatch xs c = true) : jsonAnyMatch xs cands = true := by
  induction cands with
  | nil => cases hm
  | cons d ds ih =>
    rcases List.mem_cons.mp hm with h | h
    · subst h; simp [jsonAnyMatch, hc]
    · simp [jsonAnyMatch, ih h]

theorem mem_jsonPicks {x z : Json} (h : jsonEq x z = true) :
    ∀ l₁ l₂ : List Json, (l₁ ++ l₂) ∈ jsonPicks x (l₁ ++ z :: l₂) := by
  intro l₁
  induction l₁ with
  | nil => intro l₂; simp [jsonPicks, h]
  | cons y l₁ ih =>
    intro l₂
    simp only [List.cons_append, jsonPicks]
    refine List.mem_append_right _ ?_
    exact List.mem_map.mpr ⟨l₁ ++ l₂, ih l₂, rfl⟩

theorem jsonMsetMatch_of_forall₂_perm :
    ∀ {xs zs ys : List Json}, List.Forall₂ (fun x z => jsonEq x z = true) xs zs →
      zs.Perm ys → jsonMsetMatch xs ys = true := by
  intro xs zs ys hf
  induction hf generalizing ys with
  | nil =>
    intro hp
    have : ys = [] := hp.nil_eq.symm
    subst this
    simp [jsonMsetMatch]
  | cons hxz htail ih =>
    rename_i x z xs zs
    intro hp
    have hzmem : z ∈ ys := hp.subset (List.mem_cons_self _ _)
    obtain ⟨l₁, l₂, rfl⟩ := List.append_of_mem hzmem
    have hzs : zs.Perm (l₁ ++ l₂) := (hp.trans List.perm_middle).cons_inv
    have hrec := ih hzs
    simp only [jsonMsetMatch]
    exact jsonAnyMatch_of_mem (mem_jsonPicks hxz l₁ l₂) hrec

theorem jsonObjMatch_self {kvs : List (String × Json)}
    (h : ∀ kv ∈ kvs, jsonEq kv.2 kv.2 = true) : jsonObjMatch kvs kvs = true := by
  induction kvs with
  | nil => simp [jsonObjMatch]
  | cons kv kvs ih =>
    obtain ⟨k, v⟩ := kv
    simp only [jsonObjMatch, lookupRemove, if_pos rfl]
    have h1 := h (k, v) (List.mem_cons_self _ _)
    have h2 := ih (fun kv hm => h kv (List.mem_cons_of_mem _ hm))
    simp [h1, h2]

theorem jsonEq_refl : ∀ a, jsonEq a a = true := by
  refine json_size_induction _ ?_
  intro a ih
  match a with
  | .null => simp [jsonEq]
  | .bool b => simp [jsonEq]
  | .num n => simp [jsonEq]
  | .str s => simp [jsonEq]
  | .arr xs =>
    have hsz : ∀ x ∈ xs, sizeOf x < sizeOf (Json.arr xs) := by
      intro x hx
      have := List.sizeOf_lt_of_mem hx
      simp only [Json.arr.sizeOf_spec]
      omega
    have hf : List.Forall₂ (fun x z => jsonEq x z = true) xs xs :=
      List.forall₂_same.mpr (fun x hx => ih x (hsz x hx))
    simp only [jsonEq]
    exact jsonMsetMatch_of_forall₂_perm hf (List.Perm.refl xs)
  | .obj kvs =>
    have hsz : ∀ kv ∈ kvs, sizeOf kv.2 < sizeOf (Json.obj kvs) := by
      intro kv hm
      have h1 := List.sizeOf_lt_of_mem hm
      obtain ⟨k, v⟩ := kv
      simp only [Json.obj.sizeOf_spec]
      simp only [Prod.mk.sizeOf_spec] at h1
      omega
    simp only [jsonEq]
    exact jsonObjMatch_self (fun kv hm => ih kv.2 (hsz kv hm))

theorem jsonPtwise_forall₂ : ∀ {xs zs : List Json}, JsonPtwise xs zs →
    (∀ x ∈ xs, ∀ z, JsonPerm x z → jsonEq x z = true) →
    List.Forall₂ (fun x z => jsonEq x z = true) xs zs := by
  intro xs
  induction xs with
  | nil => intro zs h _; cases h; exact List.Forall₂.nil
  | cons x xs ihx =>
    intro zs h ih
    cases h with
    | cons hxy htail =>
      exact List.Forall₂.cons
        (ih x (List.mem_cons_self _ _) _ hxy)
        (ihx htail (fun x hm z hp => ih x (List.mem_cons_of_mem _ hm) z hp))

theorem jsonObjPtwise_match : ∀ {kvs kvs' : List (String × Json)}, JsonObjPtwise kvs kvs' →
    (∀ kv ∈ kvs, ∀ v', JsonPerm kv.2 v' → jsonEq kv.2 v' = true) →
    jsonObjMatch kvs kvs' = true := by
  intro kvs
  induction kvs with
  | nil => intro kvs' h _; cases h; simp [jsonObjMatch]
  | cons kv kvs ihk =>
    intro kvs' h ih
    cases h with
    | cons hv htail =>
      rename_i k v v' kvs''
      simp only [jsonObjMatch, lookupRemove, if_pos rfl]
      have h1 := ih (k, v) (List.mem_cons_self _ _) v' hv
      have h2 := ihk htail (fun kv hm w hp => ih kv (List.mem_cons_of_mem _ hm) w hp)
      simp [h1, h2]

theorem jsonPerm_eq : ∀ a, ∀ b, JsonPerm a b → jsonEq a b = true := by
  refine json_size_induction _ ?_
  intro a ih b hperm
  cases hperm with
  | null => simp [jsonEq]
  | bool b => simp [jsonEq]
  | num n => simp [jsonEq]
  | str s => simp [jsonEq]
  | arr hpt hp =>
    rename_i xs ys zs
    have hsz : ∀ x ∈ xs, sizeOf x < sizeOf (Json.arr xs) := by
      intro x hx
      have := List.sizeOf_lt_of_mem hx
      simp only [Json.arr.sizeOf_spec]
      omega
    have hf := jsonPtwise_forall₂ hpt (fun x hm z hpz => ih x (hsz x hm) z hpz)
    simp only [jsonEq]
    exact jsonMsetMatch_of_forall₂_perm hf hp
  | obj hpt =>
    rename_i kvs kvs'
    have hsz : ∀ kv ∈ kvs, sizeOf kv.2 < sizeOf (Json.obj kvs) := by
      intro kv hm
      have h1 := List.sizeOf_lt_of_mem hm
      obtain ⟨k, v⟩ := kv
      simp only [Json.obj.sizeOf_spec]
      simp only [Prod.mk.sizeOf_spec] at h1
      omega
    simp only [jsonEq]
    exact jsonObjPtwise_match hpt (fun kv hm v' hpv => ih kv.2 (hsz kv hm) v' hpv)

/-! ## Consequences for the rendered diff -/

theorem jsonDiffEntries_of_eq {path : String} {a b : Json} (h : jsonEq a b = true) :
    jsonDiffEntries path a b = [] := by
  unfold jsonDiffEntries
  rw [if_pos h]

theorem deepDiffPretty_of_eq {a b : Json} (h : jsonEq a b = true) :
    deepDiffPretty a b = "" := by
  simp only [deepDiffPretty, jsonDiffEntries_of_eq h, List.map_nil]
  rfl

theorem renderedDiff_of_eq {a b : Json} (h : jsonEq a b = true) :
    renderedDiff a b = ["- "] := by
  simp only [renderedDiff, diffLines, deepDiffPretty_of_eq h]
  rfl
theorem charListLe_total : ∀ as bs : List Char, charListLe as bs = true ∨ charListLe bs as = true := by
  intro as
  induction as with
  | nil => intro bs; left; simp [charListLe]
  | cons a as ih =>
    intro bs
    cases bs with
    | nil => right; simp [charListLe]
    | cons b bs =>
      by_cases h : a.toNat = b.toNat
      · rcases ih bs with h' | h'
        · left; simp only [charListLe]; rw [if_pos h]; exact h'
        · right; simp only [charListLe]; rw [if_pos h.symm]; exact h'
      · rcases Nat.lt_or_ge a.toNat b.toNat with hlt | hge
        · left; simp only [charListLe]; rw [if_neg h]; exact decide_eq_true hlt
        · right; simp only [charListLe]; rw [if_neg (by omega)]; exact decide_eq_true (by omega)

theorem charListLe_trans : ∀ as bs cs : List Char,
    charListLe as bs = true → charListLe bs cs = true → charListLe as cs = true := by
  intro as
  induction as with
  | nil => intro bs cs _ _; simp [charListLe]
  | cons a as ih =>
    intro bs cs h1 h2
    cases bs with
    | nil => simp [charListLe] at h1
    | cons b bs =>
      cases cs with
      | nil => simp [charListLe] at h2
      | cons c cs =>
        simp only [charListLe] at h1 h2 ⊢
        by_cases hab : a.toNat = b.toNat
        · rw [if_pos hab] at h1
          by_cases hbc : b.toNat = c.toNat
          · rw [if_pos hbc] at h2
            rw [if_pos (hab.trans hbc)]
            exact ih bs cs h1 h2
          · rw [if_neg hbc] at h2
            have h2' : b.toNat < c.toNat := of_decide_eq_true h2
            rw [if_neg (by omega)]
            exact decide_eq_true (by omega)
        · rw [if_neg hab] at h1
          have h1' : a.toNat < b.toNat := of_decide_eq_true h1
          by_cases hbc : b.toNat = c.toNat
          · rw [if_neg (by omega)]
            exact decide_eq_true (by omega)
          · rw [if_neg hbc] at h2
            have h2' : b.toNat < c.toNat := of_decide_eq_true h2
            rw [if_neg (by omega)]
            exact decide_eq_true (by omega)

instance : IsTotal PathT pathLe :=
  ⟨fun p q => charListLe_total (pathStr p).toList (pathStr q).toList⟩

instance : IsTrans PathT pathLe :=
  ⟨fun _ _ _ h1 h2 => charListLe_trans _ _ _ h1 h2⟩

instance : IsTotal ScriptResult byDurationDesc :=
  ⟨fun a b => le_total b.duration a.duration⟩

instance : IsTrans ScriptResult byDurationDesc :=
  ⟨fun _ _ _ h1 h2 => le_trans h2 h1⟩

/-! ## Lemmas about `load_products_json` -/

/-- What `load_products_json` stores for one path. -/
def contentAt (fs : PathT → FileState) (p : PathT) : Json :=
  match fs p with
  | .missing => .obj []
  | .unparsable => .obj []
  | .parsed j => j

theorem lookupP_upsert_self (m : List (PathT × Json)) (k : PathT) (v : Json) :
    lookupP k (upsert m k v) = some v := by
  induction m with
  | nil => simp [upsert, lookupP]
  | cons kv m ih =>
    obtain ⟨k', v'⟩ := kv
    by_cases h : k' = k
    · simp [upsert, h, lookupP]
    · simp [upsert, h, lookupP, ih]

theorem lookupP_upsert_other (m : List (PathT × Json)) (k : PathT) (v : Json) (k' : PathT)
    (h : k' ≠ k) : lookupP k' (upsert m k v) = lookupP k' m := by
  induction m with
  | nil => simp [upsert, lookupP, Ne.symm h]
  | cons kv m ih =>
    obtain ⟨k'', v''⟩ := kv
    by_cases h2 : k'' = k
    · subst h2
      simp [upsert, lookupP, Ne.symm h]
    · by_cases h3 : k'' = k'
      · subst h3
        simp [upsert, h2, lookupP]
      · simp [upsert, h2, lookupP, h3, ih]

theorem loadGo_lookup {fs : PathT → FileState} :
    ∀ {ps : List PathT} {acc m : List (PathT × Json)}, loadGo fs ps acc = .ok m →
      ∀ p, lookupP p m = if p ∈ ps then some (contentAt fs p) else lookupP p acc := by
  intro ps
  induction ps with
  | nil =>
    intro acc m h p
    simp only [loadGo] at h
    cases h
    simp
  | cons q ps ih =>
    intro acc m h p
    simp only [loadGo] at h
    by_cases hmem : p ∈ q :: ps
    · rw [if_pos hmem]
      by_cases hps : p ∈ ps
      · cases hfs : fs q <;> rw [hfs] at h
        · exact (ih h p).trans (by rw [if_pos hps])
        · cases h
        · exact (ih h p).trans (by rw [if_pos hps])
      · have hpq : p = q := by
          rcases List.mem_cons.mp hmem with h' | h'
          · exact h'
          · exact absurd h' hps
        subst hpq
        cases hfs : fs p <;> rw [hfs] at h
        · rw [ih h p, if_neg hps, lookupP_upsert_self, contentAt, hfs]
        · cases h
        · rw [ih h p, if_neg hps, lookupP_upsert_self, contentAt, hfs]
    · rw [if_neg hmem]
      have hps : p ∉ ps := fun h' => hmem (List.mem_cons_of_mem _ h')
      have hpq : p ≠ q := fun h' => hmem (h' ▸ List.mem_cons_self _ _)
      cases hfs : fs q <;> rw [hfs] at h
      · rw [ih h p, if_neg hps, lookupP_upsert_other _ _ _ _ hpq]
      · cases h
      · rw [ih h p, if_neg hps, lookupP_upsert_other _ _ _ _ hpq]

theorem loadGo_ok {fs : PathT → FileState} :
    ∀ {ps : List PathT} (acc : List (PathT × Json)), (∀ p ∈ ps, fs p ≠ .unparsable) →
      ∃ m, loadGo fs ps acc = .ok m := by
  intro ps
  induction ps with
  | nil => intro acc _; exact ⟨acc, rfl⟩
  | cons q ps ih =>
    intro acc h
    have hq := h q (List.mem_cons_self _ _)
    have hrest : ∀ p ∈ ps, fs p ≠ .unparsable :=
      fun p hp => h p (List.mem_cons_of_mem _ hp)
    cases hfs : fs q with
    | missing => simpa only [loadGo, hfs] using ih (upsert acc q (.obj [])) hrest
    | unparsable => exact absurd hfs hq
    | parsed j => simpa only [loadGo, hfs] using ih (upsert acc q j) hrest

theorem lookupP_isSome_iff (m : List (PathT × Json)) (p : PathT) :
    (lookupP p m).isSome ↔ p ∈ m.map Prod.fst := by
  induction m with
  | nil => simp [lookupP]
  | cons kv m ih =>
    obtain ⟨k, v⟩ := kv
    simp only [List.map_cons, List.mem_cons, lookupP]
    by_cases h : k = p
    · subst h
      rw [if_pos rfl]
      exact iff_of_true rfl (Or.inl rfl)
    · rw [if_neg h, ih]
      constructor
      · exact fun hm => Or.inr hm
      · rintro (hpk | hm)
        · exact absurd hpk.symm h
        · exact hm
/-! ## Lemmas about the coordinator -/

theorem mainRun_shape (env : Env) :
    (mainRun env).exitCode.isSome →
      (mainRun env).exitCode = some (if mainFlag env then 1 else 0) ∧
      (mainRun env).stashedAtExit = false ∧
      ((GitOp.stash ∈ (mainRun env).gitTrace) ↔ (GitOp.pop ∈ (mainRun env).gitTrace)) := by
  unfold mainRun
  split
  · intro _
    refine ⟨rfl, rfl, ?_⟩
    simp [baseTrace]
  · split
    · intro h; simp at h
    · split
      · intro h; simp at h
      · split
        · intro h; simp at h
        · intro _
          refine ⟨rfl, rfl, ?_⟩
          simp [baseTrace]

theorem mainRun_no_update {env : Env} (h : get_updated_products env.gitDiff = []) :
    mainRun env =
      { summary := baseSummary env ++ ["No update"]
        commitMessage := none
        exitCode := some (if mainFlag env then 1 else 0)
        stashedAtExit := false
        gitTrace := baseTrace } := by
  have hup : (updatedProducts env).isEmpty = true := by
    simp [updatedProducts, h]
  unfold mainRun
  rw [if_pos hup]

theorem run_scripts_flag_eq_false_iff (results : List ScriptResult) :
    run_scripts_flag results = false ↔ ∀ r ∈ results, r.success = true := by
  simp [run_scripts_flag, List.all_eq_true]

theorem run_scripts_flag_eq_true_iff (results : List ScriptResult) :
    run_scripts_flag results = true ↔ ∃ r ∈ results, r.success = false := by
  simp [run_scripts_flag, List.all_eq_true]

theorem intercalate_singleton (x : String) : String.intercalate ", " [x] = x := by
  simp [String.intercalate, String.intercalate.go]

theorem entrySection_of_eq (p : PathT) (ov nv : Json) (h : jsonEq ov nv = true) :
    entrySection p ov nv =
      (["### " ++ pathStem p ++ "\n", "- ", ""], [pathStem p ++ ":", "- ", ""]) := by
  simp [entrySection, renderedDiff_of_eq h]

theorem generate_single_of_eq (p : PathT) (ov nv : Json) (h : jsonEq ov nv = true) :
    generate_commit_message [(p, ov)] [(p, nv)] =
      some (["Updated 1 products: " ++ pathStem p ++ ".\n",
             "### " ++ pathStem p ++ "\n", "- ", ""],
            ["🤖: " ++ pathStem p ++ "\n", pathStem p ++ ":", "- ", ""]) := by
  simp [generate_commit_message, sectionsGo, lookupP, entrySection_of_eq p ov nv h,
    productNames, intercalate_singleton]
  rfl
/-! ## Claim theorems -/

theorem load_keys {ps : List PathT} {fs : PathT → FileState} {m : List (PathT × Json)}
    (h : load_products_json ps fs = .ok m) (p : PathT) :
    p ∈ m.map Prod.fst ↔ p ∈ ps := by
  rw [← lookupP_isSome_iff]
  have hl := loadGo_lookup h p
  by_cases hp : p ∈ ps
  · rw [if_pos hp] at hl
    rw [hl]
    simp [hp]
  · rw [if_neg hp] at hl
    rw [hl]
    simp [lookupP, hp]

/-- C1: when the run reaches `sys.exit`, the exit code is `0` iff every
executed script exited with status `0`, and `1` iff at least one failed —
for every environment, hence independently of whether any files changed;
and for the empty script set `run_scripts` returns a false failure flag. -/
theorem c1_exit_code :
    (∀ (env : Env) (c : Nat), (mainRun env).exitCode = some c →
        ((c = 0 ↔ ∀ r ∈ scriptResults env, r.success = true) ∧
         (c = 1 ↔ ∃ r ∈ scriptResults env, r.success = false))) ∧
    run_scripts_flag [] = false := by
  refine ⟨?_, rfl⟩
  intro env c h
  have hsome : (mainRun env).exitCode.isSome := by rw [h]; rfl
  have hc := (mainRun_shape env hsome).1
  rw [h, Option.some.injEq] at hc
  by_cases hf : mainFlag env
  · rw [if_pos hf] at hc
    subst hc
    have hex := (run_scripts_flag_eq_true_iff (scriptResults env)).mp hf
    constructor
    · constructor
      · intro h10; exact absurd h10 one_ne_zero
      · intro hall
        obtain ⟨r, hr, hrf⟩ := hex
        rw [hall r hr] at hrf
        cases hrf
    · exact ⟨fun _ => hex, fun _ => rfl⟩
  · rw [if_neg hf] at hc
    subst hc
    have hf' : run_scripts_flag (scriptResults env) = false := by
      simpa [mainFlag] using hf
    have hall := (run_scripts_flag_eq_false_iff (scriptResults env)).mp hf'
    constructor
    · exact ⟨fun _ => hall, fun _ => rfl⟩
    · constructor
      · intro h01; exact absurd h01 zero_ne_one
      · rintro ⟨r, hr, hrf⟩
        rw [hall r hr] at hrf
        cases hrf

theorem c1_exit_code_witness :
    ((0 = 0 ↔ ∀ r ∈ scriptResults envQuiet, r.success = true) ∧
     (0 = 1 ↔ ∃ r ∈ scriptResults envQuiet, r.success = false)) ∧
    run_scripts_flag [] = false :=
  ⟨c1_exit_code.1 envQuiet 0 (by decide), c1_exit_code.2⟩

/-- C2 counterexample: a run in which loading the old snapshot fails between
the stash and the pop (`envStashFail`) aborts with the repository left in the
stashed (reverted) state — the trace ends at the stash, no pop runs, and no
exit code is produced — refuting the claim that no failure between stash and
pop can leave the repository stashed. -/
theorem c2_counterexample :
    (mainRun envStashFail).stashedAtExit = true ∧
    (mainRun envStashFail).gitTrace = [GitOp.addAll, GitOp.diffStaged, GitOp.stash] ∧
    (mainRun envStashFail).exitCode = none :=
  ⟨by decide, by decide, by decide⟩

/-- C2 (amended): on every run that completes (reaches `sys.exit`), the
repository is not left stashed and the stash and pop calls are paired; a
failure between stash and pop (for example an error while loading the old
snapshot) instead aborts the run with the repository still stashed. -/
theorem c2_stash_pop_paired (env : Env) (h : (mainRun env).exitCode.isSome) :
    (mainRun env).stashedAtExit = false ∧
      ((GitOp.stash ∈ (mainRun env).gitTrace) ↔ (GitOp.pop ∈ (mainRun env).gitTrace)) :=
  ⟨(mainRun_shape env h).2.1, (mainRun_shape env h).2.2⟩

theorem c2_stash_pop_paired_witness :
    (mainRun envQuiet).stashedAtExit = false ∧
      ((GitOp.stash ∈ (mainRun envQuiet).gitTrace) ↔ (GitOp.pop ∈ (mainRun envQuiet).gitTrace)) :=
  c2_stash_pop_paired envQuiet (by decide)

/-- C3: for every staged-diff output in which each path is listed once (as
the git query produces), `get_updated_products` returns a sorted,
duplicate-free sequence containing exactly the parsed paths whose immediate
parent directory is the output directory `releases`. -/
theorem c3_change_set (stdout : String)
    (hnd : ((pySplitNl stdout).map parsePath).Nodup) :
    List.Sorted pathLe (get_updated_products stdout) ∧
    (get_updated_products stdout).Nodup ∧
    ∀ p, p ∈ get_updated_products stdout ↔
      p ∈ (pySplitNl stdout).map parsePath ∧ pathParent p = DATA_DIR := by
  have hperm := List.perm_insertionSort pathLe
    (((pySplitNl stdout).map parsePath).filter (fun p => pathParent p == DATA_DIR))
  refine ⟨List.sorted_insertionSort pathLe _, ?_, ?_⟩
  · exact hperm.nodup_iff.mpr (hnd.filter _)
  · intro p
    rw [show (p ∈ get_updated_products stdout) =
        (p ∈ (((pySplitNl stdout).map parsePath).filter
          (fun p => pathParent p == DATA_DIR)).insertionSort pathLe) from rfl,
      hperm.mem_iff, List.mem_filter]
    simp

theorem c3_change_set_witness :
    List.Sorted pathLe (get_updated_products "releases/b.json\nreleases/a.json\nsrc/x.py\n") ∧
    (get_updated_products "releases/b.json\nreleases/a.json\nsrc/x.py\n").Nodup ∧
    ∀ p, p ∈ get_updated_products "releases/b.json\nreleases/a.json\nsrc/x.py\n" ↔
      p ∈ (pySplitNl "releases/b.json\nreleases/a.json\nsrc/x.py\n").map parsePath ∧
        pathParent p = DATA_DIR :=
  c3_change_set "releases/b.json\nreleases/a.json\nsrc/x.py\n" (by decide)

/-- C4: `load_products_json` maps every missing path in its input to the
empty object instead of raising — uniformly, whatever the rest of the
filesystem looks like — and every existing (parseable) path to its parsed
JSON content. -/
theorem c4_missing_as_empty (ps : List PathT) (fs : PathT → FileState)
    (h : ∀ p ∈ ps, fs p ≠ FileState.unparsable) :
    ∃ m, load_products_json ps fs = .ok m ∧
      ∀ p ∈ ps, (fs p = .missing → lookupP p m = some (Json.obj [])) ∧
        (∀ j, fs p = .parsed j → lookupP p m = some j) := by
  obtain ⟨m, hm⟩ := @loadGo_ok fs ps [] h
  refine ⟨m, hm, ?_⟩
  intro p hp
  have hl := loadGo_lookup hm p
  rw [if_pos hp] at hl
  constructor
  · intro hmiss
    rw [hl]
    simp [contentAt, hmiss]
  · intro j hj
    rw [hl]
    simp [contentAt, hj]

theorem c4_missing_as_empty_witness :
    (∀ p ∈ psPair, fsOne p ≠ FileState.unparsable) ∧
    ∃ m, load_products_json psPair fsOne = .ok m ∧
      ∀ p ∈ psPair, (fsOne p = .missing → lookupP p m = some (Json.obj [])) ∧
        (∀ j, fsOne p = .parsed j → lookupP p m = some j) := by
  have h : ∀ p ∈ psPair, fsOne p ≠ FileState.unparsable := by
    intro p hp
    simp only [psPair, List.mem_cons, List.not_mem_nil, or_false] at hp
    rcases hp with rfl | rfl <;> simp [fsOne]
  exact ⟨h, c4_missing_as_empty psPair fsOne h⟩

/-- C5: when the change set is empty, the run writes exactly the script table
followed by the update header and `"No update"` to the step summary, writes
no commit message, and skips the diff stage (no stash, no pop). -/
theorem c5_no_update_branch (env : Env) (h : get_updated_products env.gitDiff = []) :
    "No update" ∈ (mainRun env).summary ∧
    (mainRun env).summary = baseSummary env ++ ["No update"] ∧
    (mainRun env).commitMessage = none ∧
    GitOp.stash ∉ (mainRun env).gitTrace ∧
    GitOp.pop ∉ (mainRun env).gitTrace := by
  rw [mainRun_no_update h]
  refine ⟨?_, rfl, rfl, ?_, ?_⟩
  · simp
  · simp [baseTrace]
  · simp [baseTrace]

theorem c5_no_update_branch_witness :
    "No update" ∈ (mainRun envQuiet).summary ∧
    (mainRun envQuiet).summary = baseSummary envQuiet ++ ["No update"] ∧
    (mainRun envQuiet).commitMessage = none ∧
    GitOp.stash ∉ (mainRun envQuiet).gitTrace ∧
    GitOp.pop ∉ (mainRun envQuiet).gitTrace :=
  c5_no_update_branch envQuiet (by decide)

/-- C6 counterexample: the rendered reporting-loop output for a self-diff is
the single artifact line `"- "` — obtained by splitting the empty pretty
string on newlines — not zero lines, refuting the claim that the rendered
output has zero diff lines. -/
theorem c6_counterexample :
    renderedDiff (Json.num 1) (Json.num 1) = ["- "] ∧
    renderedDiff (Json.num 1) (Json.num 1) ≠ [] := by
  have h := renderedDiff_of_eq (jsonEq_refl (Json.num 1))
  refine ⟨h, ?_⟩
  rw [h]
  simp

/-- C6 (amended): diffing any JSON value against itself, and diffing any two
values differing only in array element order, yields an empty structural
diff (empty pretty string); the reporting loop then renders exactly one
empty bullet line `"- "` (the artifact of splitting the empty string) rather
than zero lines. -/
theorem c6_order_insensitive :
    (∀ v : Json, deepDiffPretty v v = "" ∧ renderedDiff v v = ["- "]) ∧
    (∀ a b : Json, JsonPerm a b → deepDiffPretty a b = "" ∧ renderedDiff a b = ["- "]) :=
  ⟨fun v => ⟨deepDiffPretty_of_eq (jsonEq_refl v), renderedDiff_of_eq (jsonEq_refl v)⟩,
   fun a b h => ⟨deepDiffPretty_of_eq (jsonPerm_eq a b h), renderedDiff_of_eq (jsonPerm_eq a b h)⟩⟩

theorem c6_order_insensitive_witness :
    deepDiffPretty (Json.arr [Json.num 1, Json.num 2]) (Json.arr [Json.num 2, Json.num 1]) = "" ∧
    renderedDiff (Json.arr [Json.num 1, Json.num 2]) (Json.arr [Json.num 2, Json.num 1]) = ["- "] :=
  c6_order_insensitive.2 _ _
    (JsonPerm.arr
      (JsonPtwise.cons (JsonPerm.num 1) (JsonPtwise.cons (JsonPerm.num 2) JsonPtwise.nil))
      (List.Perm.swap (Json.num 2) (Json.num 1) []))

/-- C7 counterexample: for an entity in the change set whose structural diff
is empty, the emitted section is the header followed by one empty bullet
line `"- "` and a blank line — not a header with zero diff lines. -/
theorem c7_counterexample :
    entrySection ["releases", "beta.json"] (Json.num 3) (Json.num 3) =
      (["### beta\n", "- ", ""], ["beta:", "- ", ""]) ∧
    (["beta:", "- ", ""] : List String) ≠ ["beta:", ""] := by
  constructor
  · rw [entrySection_of_eq _ _ _ (jsonEq_refl _)]
    decide
  · decide

/-- C7 (amended): for every entity whose old and new content are
order-insensitively equal (empty structural diff), the reporter still emits
the entity header in both the step summary and the commit message — followed
by exactly one empty bullet line `"- "` and a blank line — and the run
completes normally rather than erroring. -/
theorem c7_empty_diff_reported (p : PathT) (ov nv : Json) (h : jsonEq ov nv = true) :
    entrySection p ov nv =
      (["### " ++ pathStem p ++ "\n", "- ", ""], [pathStem p ++ ":", "- ", ""]) ∧
    generate_commit_message [(p, ov)] [(p, nv)] =
      some (["Updated 1 products: " ++ pathStem p ++ ".\n",
             "### " ++ pathStem p ++ "\n", "- ", ""],
            ["🤖: " ++ pathStem p ++ "\n", pathStem p ++ ":", "- ", ""]) :=
  ⟨entrySection_of_eq p ov nv h, generate_single_of_eq p ov nv h⟩

theorem c7_empty_diff_reported_witness :
    entrySection ["releases", "alpha.json"] (Json.obj []) (Json.obj []) =
      (["### " ++ pathStem ["releases", "alpha.json"] ++ "\n", "- ", ""],
       [pathStem ["releases", "alpha.json"] ++ ":", "- ", ""]) ∧
    generate_commit_message [(["releases", "alpha.json"], Json.obj [])]
        [(["releases", "alpha.json"], Json.obj [])] =
      some (["Updated 1 products: " ++ pathStem ["releases", "alpha.json"] ++ ".\n",
             "### " ++ pathStem ["releases", "alpha.json"] ++ "\n", "- ", ""],
            ["🤖: " ++ pathStem ["releases", "alpha.json"] ++ "\n",
             pathStem ["releases", "alpha.json"] ++ ":", "- ", ""]) :=
  c7_empty_diff_reported ["releases", "alpha.json"] (Json.obj []) (Json.obj [])
    (jsonEq_refl (Json.obj []))

/-- C8: the two snapshots taken per run, being `load_products_json` applied
to the same path list, have identical key sets, equal (as sets) to the
change-set paths. -/
theorem c8_snapshot_keys (ps : List PathT) (fs₁ fs₂ : PathT → FileState)
    (m₁ m₂ : List (PathT × Json)) (h₁ : load_products_json ps fs₁ = .ok m₁)
    (h₂ : load_products_json ps fs₂ = .ok m₂) :
    ∀ p, (p ∈ m₁.map Prod.fst ↔ p ∈ m₂.map Prod.fst) ∧ (p ∈ m₁.map Prod.fst ↔ p ∈ ps) :=
  fun p => ⟨(load_keys h₁ p).trans (load_keys h₂ p).symm, load_keys h₁ p⟩

theorem c8_snapshot_keys_witness :
    (["releases", "alpha.json"] ∈
        ([(["releases", "alpha.json"], Json.num 1),
          (["releases", "beta.json"], Json.obj [])] : List (PathT × Json)).map Prod.fst ↔
      ["releases", "alpha.json"] ∈
        ([(["releases", "alpha.json"], Json.obj []),
          (["releases", "beta.json"], Json.obj [])] : List (PathT × Json)).map Prod.fst) ∧
    (["releases", "alpha.json"] ∈
        ([(["releases", "alpha.json"], Json.num 1),
          (["releases", "beta.json"], Json.obj [])] : List (PathT × Json)).map Prod.fst ↔
      ["releases", "alpha.json"] ∈ psPair) :=
  c8_snapshot_keys psPair fsOne (fun _ => .missing)
    [(["releases", "alpha.json"], Json.num 1), (["releases", "beta.json"], Json.obj [])]
    [(["releases", "alpha.json"], Json.obj []), (["releases", "beta.json"], Json.obj [])]
    rfl rfl ["releases", "alpha.json"]

/-- C9: the rendered script summary table has exactly one row per discovered
script (the rows are a permutation of the results, one per `.py` file), the
rows are sorted by descending duration, and the summary consists of the
header lines followed by exactly those rows. -/
theorem c9_summary_table (env : Env) :
    (tableRows env).length = (discoveredScripts env.srcListing).length ∧
    (tableRows env).Perm (scriptResults env) ∧
    List.Sorted byDurationDesc (tableRows env) ∧
    run_scripts_summary env =
      ["## Script execution summary\n", "| Name | Duration | Succeeded |",
       "|------|----------|-----------|"] ++ (tableRows env).map renderRow ++ [""] := by
  have hperm := List.perm_insertionSort byDurationDesc (scriptResults env)
  refine ⟨?_, hperm, List.sorted_insertionSort byDurationDesc (scriptResults env), rfl⟩
  rw [show tableRows env = (scriptResults env).insertionSort byDurationDesc from rfl,
    hperm.length_eq]
  simp [scriptResults]

/-- C10: every element of the change set is a non-empty path lying directly
under the output directory; in particular the empty-string entry produced by
splitting a trailing-newline diff output (which parses to the empty path) is
never included. -/
theorem c10_no_empty_path (stdout : String) (p : PathT)
    (hp : p ∈ get_updated_products stdout) :
    p ≠ [] ∧ pathParent p = DATA_DIR := by
  have hperm := List.perm_insertionSort pathLe
    (((pySplitNl stdout).map parsePath).filter (fun q => pathParent q == DATA_DIR))
  have hm : p ∈ ((pySplitNl stdout).map parsePath).filter (fun q => pathParent q == DATA_DIR) :=
    hperm.subset hp
  rw [List.mem_filter] at hm
  have hparent : pathParent p = DATA_DIR := by simpa using hm.2
  refine ⟨?_, hparent⟩
  intro hnil
  rw [hnil] at hparent
  simp [pathParent, DATA_DIR] at hparent

theorem c10_no_empty_path_witness :
    (["releases", "a.json"] : PathT) ≠ [] ∧
      pathParent ["releases", "a.json"] = DATA_DIR :=
  c10_no_empty_path "releases/a.json\n" ["releases", "a.json"] (by decide)
